import Mathlib

/-!
Shallow embedding of `external-ip.go` (package `externalip`).

The program resolves the external IP of the host by fanning a query out to a
pool of independent resolvers ("askers") and accepting the first value whose
tally strictly exceeds half the pool size.  The two entry points `DNS()` and
`HTTP()` share the same collecting loop:

    ch := make(chan string)
    for _, f := range pool { go func(f) { ch <- f() }(f) }
    result := make(chan string)
    go func() {
        ips := make(map[string]int)
        done := false
        for range pool {
            ip := <-ch
            ips[ip]++
            if !done && ips[ip] > len(pool)/2 {
                result <- ip
                done = true
            }
        }
        close(result)
    }()
    return <-result

We embed the collecting goroutine as a fold over the sequence of results in
their arrival order (an arbitrary interleaving of the pool results), the Go
`map[string]int` as an association list with zero-default lookup, and the
sends on the `result` channel as a list of emitted values.  The value the
caller receives from `return <-result` is the first emitted value, or the
zero value "" delivered by `close(result)` once the loop has consumed all
`len(pool)` results without a winner; if fewer than `len(pool)` results ever
arrive and nothing was emitted, the receive blocks forever, which we model
as `none`.
-/

/-- Go map read `ips[k]` for a `map[string]int`: a missing key reads as the
zero value 0. -/
def mapGet (m : List (String × Nat)) (k : String) : Nat :=
  match m with
  | [] => 0
  | (k', v) :: rest => if k' = k then v else mapGet rest k

/-- Go map increment `ips[k]++`: a missing key is inserted with value 1. -/
def mapIncr (m : List (String × Nat)) (k : String) : List (String × Nat) :=
  match m with
  | [] => [(k, 1)]
  | (k', v) :: rest => if k' = k then (k', v + 1) :: rest else (k', v) :: mapIncr rest k

/-- State of the collecting goroutine: the tally map `ips`, the `done` flag,
and the sequence of values sent on the `result` channel so far. -/
structure AggState where
  ips : List (String × Nat)
  done : Bool
  emitted : List String
deriving Repr, DecidableEq

/-- Initial state of the collecting goroutine: empty map, `done = false`,
nothing sent on `result`. -/
def initState : AggState := AggState.mk [] false []

/-- One iteration of the collecting loop body, at pool size `n`, on arrival
of result `ip`:

    ip := <-ch
    ips[ip]++
    if !done && ips[ip] > len(pool)/2 { result <- ip; done = true }
-/
def collectStep (n : Nat) (s : AggState) (ip : String) : AggState :=
  let ips' := mapIncr s.ips ip
  if s.done = false ∧ n / 2 < mapGet ips' ip then
    AggState.mk ips' true (s.emitted ++ [ip])
  else
    AggState.mk ips' s.done s.emitted

/-- The collecting goroutine after the results in `arrivals` (in arrival
order) have been received from `ch`, for a pool of size `n`. -/
def collectLoop (n : Nat) (arrivals : List String) : AggState :=
  arrivals.foldl (collectStep n) initState

/-- The value the caller obtains from `return <-result`, for pool size `n`,
when exactly the results in `arrivals` ever arrive (`arrivals.length ≤ n`;
it is all of the pool results when every asker completes).  `some v`: the
call returns `v` — either the first value sent on `result`, or the zero
value "" received after `close(result)` once the loop has consumed all `n`
results without emitting.  `none`: no value is ever sent and the loop never
finishes (fewer than `n` results arrive), so `<-result` blocks forever. -/
def AggregateReturn (n : Nat) (arrivals : List String) : Option String :=
  match (collectLoop n arrivals).emitted with
  | ip :: _ => some ip
  | [] => if arrivals.length = n then some "" else none

/-- The string returned by `DNS()` / `HTTP()` when every asker of the pool
completes: `arrivals` is the full list of pool results in arrival order, so
the pool size `len(pool)` is `arrivals.length`. -/
def Aggregate (arrivals : List String) : String :=
  match (collectLoop arrivals.length arrivals).emitted with
  | ip :: _ => ip
  | [] => ""

/-! ## Invariants of the collecting loop -/

theorem mapGet_mapIncr (m : List (String × Nat)) (a k : String) :
    mapGet (mapIncr m a) k = if k = a then mapGet m k + 1 else mapGet m k := by
  induction m with
  | nil =>
      simp only [mapIncr, mapGet]
      by_cases h : k = a
      · subst h; simp
      · have h' : ¬ a = k := fun h' => h h'.symm
        simp [h, h']
  | cons hd rest ih =>
      obtain ⟨k', v⟩ := hd
      by_cases h1 : k' = a
      · subst h1
        by_cases h2 : k' = k
        · subst h2; simp [mapIncr, mapGet]
        · have h2' : ¬ k = k' := fun h' => h2 h'.symm
          simp [mapIncr, mapGet, h2, h2']
      · by_cases h2 : k' = k
        · subst h2
          have h1' : ¬ k' = a := h1
          simp [mapIncr, mapGet, h1', fun h' : k' = a => h1 h']
        · simp [mapIncr, mapGet, h1, h2, ih]

/-- Invariant of the collecting goroutine after the results in `p` have been
received, for a pool of size `n`: the tally map agrees with the occurrence
counts of `p`; the `done` flag records whether anything was sent on
`result`; at most one value was ever sent; any sent value had already
strictly exceeded the `n / 2` threshold; and if nothing was sent, no value
has crossed the threshold. -/
def StateInv (n : Nat) (p : List String) (s : AggState) : Prop :=
  (∀ k, mapGet s.ips k = p.count k) ∧
  (s.done = true ↔ s.emitted ≠ []) ∧
  s.emitted.length ≤ 1 ∧
  (∀ w, w ∈ s.emitted → n / 2 < p.count w) ∧
  (s.emitted = [] → ∀ k, p.count k ≤ n / 2)

theorem stateInv_initState (n : Nat) : StateInv n [] initState := by
  refine ⟨?_, ?_, ?_, ?_, ?_⟩ <;> simp [initState, mapGet]

theorem count_append_singleton (p : List String) (a k : String) :
    (p ++ [a]).count k = if k = a then p.count k + 1 else p.count k := by
  by_cases h : k = a
  · subst h; simp [List.count_append]
  · simp [List.count_append, List.count_singleton', h, fun h' : a = k => h h'.symm]

theorem stateInv_step {n : Nat} {p : List String} {s : AggState}
    (h : StateInv n p s) (a : String) :
    StateInv n (p ++ [a]) (collectStep n s a) := by
  obtain ⟨hips, hdone, hlen, hemit, hnone⟩ := h
  have hips' : ∀ k, mapGet (mapIncr s.ips a) k = (p ++ [a]).count k := by
    intro k
    rw [mapGet_mapIncr, count_append_singleton]
    by_cases hk : k = a <;> simp [hk, hips]
  have hcount_le : ∀ k, p.count k ≤ (p ++ [a]).count k := by
    intro k
    rw [count_append_singleton]
    by_cases hk : k = a <;> simp [hk]
  simp only [collectStep]
  split_ifs with hc
  · obtain ⟨hd, hgt⟩ := hc
    have hempty : s.emitted = [] := by
      by_contra hne
      exact absurd (hdone.mpr hne) (by simp [hd])
    refine ⟨hips', by simp, by simp [hempty], ?_, by simp⟩
    intro w hw
    rw [hempty] at hw
    simp at hw
    subst hw
    rw [← hips' w]
    exact hgt
  · refine ⟨hips', hdone, hlen, ?_, ?_⟩
    · intro w hw
      exact lt_of_lt_of_le (hemit w hw) (hcount_le w)
    · intro hempty k
      have hempty' : s.emitted = [] := hempty
      have hdf : s.done = false := by
        by_cases hdc : s.done = true
        · exact absurd (hdone.mp hdc) (not_not.mpr hempty')
        · simpa using hdc
      have hnc : ¬ n / 2 < mapGet (mapIncr s.ips a) a := by
        intro hlt
        exact hc ⟨hdf, hlt⟩
      by_cases hk : k = a
      · subst hk
        rw [← hips' k]
        omega
      · rw [count_append_singleton]
        simp only [hk, if_false]
        exact hnone hempty k

theorem stateInv_collectLoop (n : Nat) (p : List String) :
    StateInv n p (collectLoop n p) := by
  induction p using List.reverseRecOn with
  | nil => exact stateInv_initState n
  | append_singleton q a ih =>
      have : collectLoop n (q ++ [a]) = collectStep n (collectLoop n q) a := by
        simp [collectLoop, List.foldl_append]
      rw [this]
      exact stateInv_step ih a

theorem count_pair_le_length (p : List String) {v w : String} (h : v ≠ w) :
    p.count v + p.count w ≤ p.length := by
  induction p with
  | nil => simp
  | cons a q ih =>
      simp only [List.count_cons, List.length_cons, beq_iff_eq]
      split_ifs with hv hw hw
      · exact absurd (hv.symm.trans hw) h
      · omega
      · omega
      · omega

/-- If some value reaches the strict-majority threshold among the full pool
results, the collecting loop emits exactly that value (and nothing else). -/
theorem collectLoop_majority {p : List String} {v : String}
    (h : p.length / 2 + 1 ≤ p.count v) :
    (collectLoop p.length p).emitted = [v] := by
  obtain ⟨hips, hdone, hlen, hemit, hnone⟩ := stateInv_collectLoop p.length p
  cases he : (collectLoop p.length p).emitted with
  | nil => have := hnone he v; omega
  | cons w rest =>
      have hw : w ∈ (collectLoop p.length p).emitted := by
        rw [he]; exact List.mem_cons_self w rest
      have hwc := hemit w hw
      have hrest : rest = [] := by
        rw [he] at hlen
        simpa using hlen
      subst hrest
      by_cases hvw : v = w
      · rw [hvw]
      · have hsum := count_pair_le_length p hvw
        have hle : p.count v ≤ p.length := List.count_le_length v p
        omega

/-- If no value reaches the strict-majority threshold among the received
results, the collecting loop never emits. -/
theorem collectLoop_no_majority {n : Nat} {p : List String}
    (h : ∀ v, p.count v ≤ n / 2) :
    (collectLoop n p).emitted = [] := by
  obtain ⟨hips, hdone, hlen, hemit, hnone⟩ := stateInv_collectLoop n p
  cases he : (collectLoop n p).emitted with
  | nil => rfl
  | cons w rest =>
      have hw : w ∈ (collectLoop n p).emitted := by
        rw [he]; exact List.mem_cons_self w rest
      have := hemit w hw
      have := h w
      omega

theorem Aggregate_majority {p : List String} {v : String}
    (h : p.length / 2 + 1 ≤ p.count v) : Aggregate p = v := by
  unfold Aggregate
  rw [collectLoop_majority h]

/-- Bounding the count of every member of a concrete list bounds the count
of every string (absent strings have count 0). -/
theorem count_le_of_mem_bound {p : List String} {m : Nat}
    (h : ∀ v ∈ p, p.count v ≤ m) : ∀ v, p.count v ≤ m := by
  intro v
  by_cases hv : v ∈ p
  · exact h v hv
  · rw [List.count_eq_zero.mpr hv]
    omega

/-! ## Claims -/

/-- C1: for every pool of N askers with pre-seeded results, if a value v
occurs in at least floor(N/2)+1 of the N results then the aggregation
performed by DNS() / HTTP() returns v, for every arrival order; in
particular every arrival order of the results "1.2.3.4", "1.2.3.4",
"5.6.7.8" yields "1.2.3.4", and every arrival order of ten "9.9.9.9" and
eight "" yields "9.9.9.9". -/
theorem majority_value_wins :
    (∀ (arr : List String) (v : String),
        arr.length / 2 + 1 ≤ arr.count v → Aggregate arr = v) ∧
    (∀ arr : List String,
        arr.Perm ["1.2.3.4", "1.2.3.4", "5.6.7.8"] → Aggregate arr = "1.2.3.4") ∧
    (∀ arr : List String,
        arr.Perm (List.replicate 10 "9.9.9.9" ++ List.replicate 8 "") →
          Aggregate arr = "9.9.9.9") := by
  refine ⟨fun arr v h => Aggregate_majority h, ?_, ?_⟩
  · intro arr hp
    apply Aggregate_majority
    rw [hp.count_eq, hp.length_eq]
    decide
  · intro arr hp
    apply Aggregate_majority
    rw [hp.count_eq, hp.length_eq]
    decide

theorem majority_value_wins_witness :
    Aggregate ["1.2.3.4", "5.6.7.8", "1.2.3.4"] = "1.2.3.4" :=
  majority_value_wins.2.1 ["1.2.3.4", "5.6.7.8", "1.2.3.4"] (by decide)

/-- C2: whenever the collecting loop has sent a winning value on `result`,
the tally count of that value over the results received so far (the loop
never decrements a count, so in particular at the moment of emission) is at
least floor(N/2)+1; conversely, if no value reaches that threshold over the
received results, nothing is ever sent on `result`. -/
theorem emission_requires_threshold :
    (∀ (n : Nat) (p : List String) (w : String),
        w ∈ (collectLoop n p).emitted → n / 2 + 1 ≤ p.count w) ∧
    (∀ (n : Nat) (p : List String),
        (∀ v, p.count v ≤ n / 2) → (collectLoop n p).emitted = []) := by
  constructor
  · intro n p w hw
    have := (stateInv_collectLoop n p).2.2.2.1 w hw
    omega
  · intro n p h
    exact collectLoop_no_majority h

theorem emission_requires_threshold_witness :
    (3 / 2 + 1 ≤ (["a", "a"] : List String).count "a") ∧
    (collectLoop 4 ["a", "b", "a", "b"]).emitted = [] :=
  ⟨emission_requires_threshold.1 3 ["a", "a"] "a" (by decide),
   emission_requires_threshold.2 4 ["a", "b", "a", "b"]
     (count_le_of_mem_bound (by decide))⟩

/-- C3 counterexample: the claim says that when all askers complete and no
value occurs strictly more than N/2 times, the call blocks indefinitely and
does not return.  On a 2-2 split with N = 4 the code in fact returns: the
collecting loop consumes all four results without emitting, executes
`close(result)`, and `return <-result` yields the zero value "" (modelled
as `some ""`; blocking is modelled as `none`). -/
theorem no_majority_still_returns_counterexample :
    AggregateReturn 4 ["1.1.1.1", "1.1.1.1", "2.2.2.2", "2.2.2.2"] = some ""
      ∧ AggregateReturn 4 ["1.1.1.1", "1.1.1.1", "2.2.2.2", "2.2.2.2"] ≠ none
      ∧ (collectLoop 4 ["1.1.1.1", "1.1.1.1", "2.2.2.2", "2.2.2.2"]).emitted = [] := by
  refine ⟨by decide, by decide, by decide⟩

/-- C3 amended: for every pool whose results, once all askers have
completed, contain no value occurring strictly more than N/2 times, the
aggregation call never emits a value, and it does return: the collecting
loop finishes, closes the `result` channel, and the call returns the empty
string.  (The call blocks indefinitely only when some asker never
completes and no quorum forms among the results that do arrive.) -/
theorem no_majority_full_pool_behavior
    (p : List String) (h : ∀ v, p.count v ≤ p.length / 2) :
    (collectLoop p.length p).emitted = [] ∧ AggregateReturn p.length p = some "" := by
  have he := collectLoop_no_majority h
  refine ⟨he, ?_⟩
  unfold AggregateReturn
  rw [he]
  simp

theorem no_majority_full_pool_behavior_witness :
    (collectLoop 4 ["a", "b", "c", "d"]).emitted = []
      ∧ AggregateReturn 4 ["a", "b", "c", "d"] = some "" :=
  no_majority_full_pool_behavior ["a", "b", "c", "d"]
    (count_le_of_mem_bound (by decide))

/-- C4: for every pool in which all askers finish and no value reaches the
quorum threshold, the aggregation call returns, with the empty string as
its value. -/
theorem all_finished_no_quorum_returns_empty
    (p : List String) (h : ∀ v, p.count v ≤ p.length / 2) :
    AggregateReturn p.length p = some "" := by
  unfold AggregateReturn
  rw [collectLoop_no_majority h]
  simp

theorem all_finished_no_quorum_returns_empty_witness :
    AggregateReturn 4 ["w", "x", "y", "z"] = some "" :=
  all_finished_no_quorum_returns_empty ["w", "x", "y", "z"]
    (count_le_of_mem_bound (by decide))

/-- C6: the empty string is tallied like any other value; if it occurs in
at least floor(N/2)+1 of the N results, the aggregation returns it. -/
theorem empty_string_majority_wins
    (p : List String) (h : p.length / 2 + 1 ≤ p.count "") :
    Aggregate p = "" :=
  Aggregate_majority h

theorem empty_string_majority_wins_witness :
    Aggregate ["", "", "8.8.8.8"] = "" :=
  empty_string_majority_wins ["", "", "8.8.8.8"] (by decide)

/-- C7: at most one value is ever sent on `result` per call, and once the
`done` flag is set a loop iteration never sends again, even when the
winning value arrives again and its count crosses the threshold anew. -/
theorem at_most_one_emission :
    (∀ (n : Nat) (p : List String), (collectLoop n p).emitted.length ≤ 1) ∧
    (∀ (n : Nat) (s : AggState) (a : String),
        s.done = true → (collectStep n s a).emitted = s.emitted) := by
  constructor
  · intro n p
    exact (stateInv_collectLoop n p).2.2.1
  · intro n s a hd
    simp only [collectStep]
    split_ifs with hc
    · exact absurd hd (by simp [hc.1])
    · rfl

theorem at_most_one_emission_witness :
    (collectStep 3 (AggState.mk [("a", 2)] true ["a"]) "a").emitted = ["a"] :=
  at_most_one_emission.2 3 (AggState.mk [("a", 2)] true ["a"]) "a" rfl

/-- C8: every received result is added to the tally exactly once — for any
pool size and any arrival sequence, including arrivals processed after a
winner was emitted, the final tally of each value equals its number of
occurrences among the received results. -/
theorem every_result_tallied :
    ∀ (n : Nat) (p : List String) (k : String),
      mapGet (collectLoop n p).ips k = p.count k :=
  fun n p k => (stateInv_collectLoop n p).1 k

/-! ## DNS resolver adapters -/

/-- Model of the stdlib type `net.IP`: `nil` is the nil slice (what
`net.ParseIP` returns on a string that is not an IP literal), `v4` an
address with an IPv4 form, `v6` a 16-byte address without one
(IPv4-mapped 16-byte addresses behave like `v4` through `To4`, so they
are folded into `v4`). -/
inductive GoIP where
  | nil : GoIP
  | v4 (a b c d : Nat) : GoIP
  | v6 : GoIP
deriving Repr, DecidableEq

/-- Model of the stdlib method `net.IP.To4`: the 4-byte form for an
address that has one, nil otherwise (in particular on the nil slice). -/
def To4 : GoIP → GoIP
  | GoIP.v4 a b c d => GoIP.v4 a b c d
  | _ => GoIP.nil

/-- Model of the stdlib method `net.IP.String`: the nil slice prints as
"<nil>", an IPv4 address as dotted decimal.  (The textual form of a
16-byte address is never reached by the askers, which only print results
of `To4`; any placeholder works for that branch.) -/
def ipString : GoIP → String
  | GoIP.nil => "<nil>"
  | GoIP.v4 a b c d =>
      toString a ++ "." ++ toString b ++ "." ++ toString c ++ "." ++ toString d
  | GoIP.v6 => "ipv6-address"

/-- Model of a DNS answer record as the askers inspect it: a `*dns.TXT`
carries its text strings (`t.Txt`), a `*dns.A` carries its address
(`a.A`); any other record type only matters by failing the type
assertion. -/
inductive DnsRR where
  | txt (strings : List String) : DnsRR
  | a (addr : GoIP) : DnsRR
  | other : DnsRR
deriving Repr, DecidableEq

/-- Model of `*dns.Msg` as the askers inspect it: the answer section. -/
structure DnsMsg where
  answer : List DnsRR
deriving Repr, DecidableEq

/-- A Go runtime panic reachable in the askers: indexing an empty slice. -/
inductive GoPanic where
  | indexOutOfRange : GoPanic
deriving Repr, DecidableEq

/-- GoogleDNS, embedded over the outcome of its single
`dns.Exchange(msg, "ns1.google.com:53")` call (the TXT query for
"o-o.myaddr.l.google.com.") and over the stdlib collaborator
`net.ParseIP`, passed in as `parseIP`:

    in, err := dns.Exchange(msg, "ns1.google.com:53")
    if err != nil { return }
    if t, ok := in.Answer[0].(*dns.TXT); ok {
        ip = net.ParseIP(t.Txt[0]).To4().String()
    }
    return

`in.Answer[0]` and `t.Txt[0]` are unchecked indexing: on an empty slice
the Go code panics, modelled as `Except.error GoPanic.indexOutOfRange`. -/
def GoogleDNS (parseIP : String → GoIP) (exch : Except String DnsMsg) :
    Except GoPanic String :=
  match exch with
  | Except.error _ => Except.ok ""
  | Except.ok msg =>
      match msg.answer with
      | [] => Except.error GoPanic.indexOutOfRange
      | rr :: _ =>
          match rr with
          | DnsRR.txt strs =>
              match strs with
              | [] => Except.error GoPanic.indexOutOfRange
              | s :: _ => Except.ok (ipString (To4 (parseIP s)))
          | _ => Except.ok ""

/-- OpenDNS, embedded over the outcome of its single
`dns.Exchange(msg, "resolver1.opendns.com:53")` call (the A query for
"myip.opendns.com."):

    in, err := dns.Exchange(msg, "resolver1.opendns.com:53")
    if err != nil { return }
    if a, ok := in.Answer[0].(*dns.A); ok {
        ip = a.A.To4().String()
    }
    return
-/
def OpenDNS (exch : Except String DnsMsg) : Except GoPanic String :=
  match exch with
  | Except.error _ => Except.ok ""
  | Except.ok msg =>
      match msg.answer with
      | [] => Except.error GoPanic.indexOutOfRange
      | rr :: _ =>
          match rr with
          | DnsRR.a addr => Except.ok (ipString (To4 addr))
          | _ => Except.ok ""

/-- AkamaiDNS, embedded over the outcome of its single
`dns.Exchange(msg, "ns1-1.akamaitech.net:53")` call (the A query for
"whoami.akamai.net."); same record handling as OpenDNS. -/
def AkamaiDNS (exch : Except String DnsMsg) : Except GoPanic String :=
  match exch with
  | Except.error _ => Except.ok ""
  | Except.ok msg =>
      match msg.answer with
      | [] => Except.error GoPanic.indexOutOfRange
      | rr :: _ =>
          match rr with
          | DnsRR.a addr => Except.ok (ipString (To4 addr))
          | _ => Except.ok ""

/-- C5 refutation by evaluation: the claim says every failure outcome of a
DNS asker yields "" and never panics.  The code contradicts this on two
outcomes.  A successful exchange whose answer section is empty (for
example a NODATA or NXDOMAIN reply) panics at the unchecked
`in.Answer[0]`, and likewise `t.Txt[0]` on a TXT record with no strings.
A TXT answer whose first string is not an IPv4 literal yields "<nil>"
rather than "": `net.ParseIP` gives the nil slice (or a 16-byte IPv6
address, which `To4` sends to nil) and `nil.String()` is "<nil>".  The
transport-error and wrong-record-type outcomes do yield "". -/
theorem dns_asker_failure_modes :
    GoogleDNS (fun _ => GoIP.nil) (Except.ok (DnsMsg.mk [])) =
        Except.error GoPanic.indexOutOfRange
      ∧ OpenDNS (Except.ok (DnsMsg.mk [])) = Except.error GoPanic.indexOutOfRange
      ∧ AkamaiDNS (Except.ok (DnsMsg.mk [])) = Except.error GoPanic.indexOutOfRange
      ∧ GoogleDNS (fun _ => GoIP.nil)
            (Except.ok (DnsMsg.mk [DnsRR.txt ["not an ip"]])) = Except.ok "<nil>"
      ∧ GoogleDNS (fun _ => GoIP.v6)
            (Except.ok (DnsMsg.mk [DnsRR.txt ["2001:db8::1"]])) = Except.ok "<nil>"
      ∧ GoogleDNS (fun _ => GoIP.nil) (Except.ok (DnsMsg.mk [DnsRR.txt []])) =
          Except.error GoPanic.indexOutOfRange
      ∧ GoogleDNS (fun _ => GoIP.nil) (Except.error "i/o timeout") = Except.ok ""
      ∧ OpenDNS (Except.error "i/o timeout") = Except.ok ""
      ∧ OpenDNS (Except.ok (DnsMsg.mk [DnsRR.other])) = Except.ok "" :=
  ⟨rfl, rfl, rfl, rfl, rfl, rfl, rfl, rfl, rfl⟩

/-! ## HTTP resolver adapters -/

/-- The HTTP asker pool `var urls = []string{...}`; the aggregation in
HTTP() runs with pool size `urls.length`. -/
def urls : List String := [
  "http://v4.ident.me/",
  "http://whatismyip.akamai.com/",
  "http://checkip.amazonaws.com/",
  "http://ipecho.net/plain",
  "http://inet-ip.info/ip",
  "http://eth0.me/",
  "http://wgetip.com/",
  "http://bot.whatismyipaddress.com/",
  "http://ipof.in/txt",
  "http://smart-ip.net/myip",
  "https://ip.tyk.nu/",
  "https://tnx.nl/ip",
  "https://l2.io/ip",
  "https://api.ipify.org/",
  "https://myexternalip.com/raw",
  "https://icanhazip.com",
  "https://ifconfig.io/ip",
  "https://wtfismyip.com/text"]

/-- Model of the stdlib predicate `unicode.IsSpace` (the characters
`strings.TrimSpace` strips): tab, newline, vertical tab, form feed,
carriage return, space, NEL, no-break space, and the Unicode space
separators. -/
def isSpace (c : Char) : Bool :=
  let n := c.toNat
  n = 9 || n = 10 || n = 11 || n = 12 || n = 13 || n = 32 ||
  n = 0x85 || n = 0xA0 || n = 0x1680 || (0x2000 ≤ n && n ≤ 0x200A) ||
  n = 0x2028 || n = 0x2029 || n = 0x202F || n = 0x205F || n = 0x3000

/-- Model of the stdlib function `strings.TrimSpace`: drop the maximal
run of white space from both ends of the string. -/
def trimSpace (s : String) : String :=
  String.mk (((s.data.dropWhile isSpace).reverse.dropWhile isSpace).reverse)

/-- Model of `*http.Response` as `urlGetReadAll` uses it: the status code
(present on the Go value, never inspected by the function) and the
outcome of `ioutil.ReadAll(resp.Body)`. -/
structure HttpResp where
  statusCode : Nat
  body : Except String String
deriving Repr

/-- urlGetReadAll, embedded over the outcome of its `http.Get(url)` call:

    resp, err := http.Get(url)
    if err != nil { return }
    defer resp.Body.Close()
    bytes, err := ioutil.ReadAll(resp.Body)
    if err != nil { return }
    return strings.TrimSpace(string(bytes))
-/
def urlGetReadAll (getResult : Except String HttpResp) : String :=
  match getResult with
  | Except.error _ => ""
  | Except.ok resp =>
      match resp.body with
      | Except.error _ => ""
      | Except.ok bytes => trimSpace bytes

/-- The head of what `dropWhile p` leaves does not satisfy `p`. -/
theorem head?_dropWhile_false (p : Char → Bool) (l : List Char) (c : Char)
    (h : (l.dropWhile p).head? = some c) : p c = false := by
  induction l with
  | nil => simp [List.dropWhile] at h
  | cons a t ih =>
      rw [List.dropWhile_cons] at h
      by_cases hp : p a
      · rw [if_pos hp] at h
        exact ih h
      · rw [if_neg hp] at h
        simp at h
        rw [← h]
        simpa using hp

/-- The original string splits as an all-space prefix, the trimmed
string, and an all-space suffix. -/
theorem trimSpace_decomposition (s : String) :
    ∃ pre suf : List Char,
      s.data = pre ++ (trimSpace s).data ++ suf
        ∧ (∀ c ∈ pre, isSpace c = true)
        ∧ (∀ c ∈ suf, isSpace c = true) := by
  refine ⟨s.data.takeWhile isSpace,
    ((s.data.dropWhile isSpace).reverse.takeWhile isSpace).reverse, ?_, ?_, ?_⟩
  · have h1 := List.takeWhile_append_dropWhile isSpace s.data
    have h2 := List.takeWhile_append_dropWhile isSpace (s.data.dropWhile isSpace).reverse
    have h3 : s.data.dropWhile isSpace =
        ((s.data.dropWhile isSpace).reverse.dropWhile isSpace).reverse ++
          ((s.data.dropWhile isSpace).reverse.takeWhile isSpace).reverse := by
      have := congrArg List.reverse h2
      rw [List.reverse_append, List.reverse_reverse] at this
      exact this.symm
    calc s.data = s.data.takeWhile isSpace ++ s.data.dropWhile isSpace := h1.symm
      _ = s.data.takeWhile isSpace ++
            (((s.data.dropWhile isSpace).reverse.dropWhile isSpace).reverse ++
              ((s.data.dropWhile isSpace).reverse.takeWhile isSpace).reverse) := by
            rw [← h3]
      _ = s.data.takeWhile isSpace ++ (trimSpace s).data ++
            ((s.data.dropWhile isSpace).reverse.takeWhile isSpace).reverse := by
            rw [List.append_assoc]
            rfl
  · intro c hc
    exact List.mem_takeWhile_imp hc
  · intro c hc
    rw [List.mem_reverse] at hc
    exact List.mem_takeWhile_imp hc

/-- The trimmed string neither starts nor ends with a space character. -/
theorem trimSpace_maximal (s : String) (c : Char) :
    ((trimSpace s).data.head? = some c → isSpace c = false)
      ∧ ((trimSpace s).data.getLast? = some c → isSpace c = false) := by
  constructor
  · intro h
    have hgl : ((s.data.dropWhile isSpace).reverse.dropWhile isSpace).getLast? = some c := by
      rw [← List.head?_reverse]
      exact h
    have hne : (s.data.dropWhile isSpace).reverse.dropWhile isSpace ≠ [] := by
      intro hnil
      rw [hnil] at hgl
      simp at hgl
    have h2 := List.takeWhile_append_dropWhile isSpace (s.data.dropWhile isSpace).reverse
    have hgl2 : (s.data.dropWhile isSpace).reverse.getLast? = some c := by
      rw [← h2, List.getLast?_append_of_ne_nil _ hne]
      exact hgl
    rw [List.getLast?_reverse] at hgl2
    exact head?_dropWhile_false isSpace s.data c hgl2
  · intro h
    have h' : (((s.data.dropWhile isSpace).reverse.dropWhile isSpace).reverse).getLast? =
        some c := h
    rw [List.getLast?_reverse] at h'
    exact head?_dropWhile_false isSpace (s.data.dropWhile isSpace).reverse c h'

/-- C9: for every HTTP asker, a failed GET or a failed body read yields
"", and a delivered body yields exactly the body with surrounding white
space trimmed, with no IP-format validation: the result occurs verbatim
inside the body between two all-space margins and itself neither starts
nor ends with a space character. -/
theorem urlGetReadAll_contract :
    (∀ e : String, urlGetReadAll (Except.error e) = "") ∧
    (∀ (sc : Nat) (e : String),
        urlGetReadAll (Except.ok (HttpResp.mk sc (Except.error e))) = "") ∧
    (∀ (sc : Nat) (body : String),
        urlGetReadAll (Except.ok (HttpResp.mk sc (Except.ok body))) = trimSpace body) ∧
    (∀ body : String, ∃ pre suf : List Char,
        body.data = pre ++ (trimSpace body).data ++ suf
          ∧ (∀ c ∈ pre, isSpace c = true)
          ∧ (∀ c ∈ suf, isSpace c = true)) ∧
    (∀ (body : String) (c : Char),
        (trimSpace body).data.head? = some c → isSpace c = false) ∧
    (∀ (body : String) (c : Char),
        (trimSpace body).data.getLast? = some c → isSpace c = false) :=
  ⟨fun _ => rfl, fun _ _ => rfl, fun _ _ => rfl,
   trimSpace_decomposition,
   fun body c => (trimSpace_maximal body c).1,
   fun body c => (trimSpace_maximal body c).2⟩

theorem urlGetReadAll_contract_witness :
    (urlGetReadAll (Except.ok (HttpResp.mk 200 (Except.ok " 93.184.216.34\r\n"))) =
        "93.184.216.34")
      ∧ isSpace '9' = false ∧ isSpace '4' = false := by
  refine ⟨?_, ?_, ?_⟩
  · rw [urlGetReadAll_contract.2.2.1 200 " 93.184.216.34\r\n"]
    decide
  · exact urlGetReadAll_contract.2.2.2.2.1 " 93.184.216.34\r\n" '9' (by decide)
  · exact urlGetReadAll_contract.2.2.2.2.2 " 93.184.216.34\r\n" '4' (by decide)

/-- C10: the status code of a delivered response is never inspected — the
trimmed body is the vote whatever the code — so identical non-2xx bodies
across a strict majority of the 18-asker HTTP pool win the quorum. -/
theorem status_code_ignored :
    (∀ (sc sc' : Nat) (body : Except String String),
        urlGetReadAll (Except.ok (HttpResp.mk sc body)) =
          urlGetReadAll (Except.ok (HttpResp.mk sc' body))) ∧
    urls.length = 18 ∧
    urlGetReadAll (Except.ok (HttpResp.mk 503 (Except.ok "Service Unavailable"))) =
        "Service Unavailable" ∧
    Aggregate
        (List.replicate 10
            (urlGetReadAll (Except.ok (HttpResp.mk 503 (Except.ok "Service Unavailable")))) ++
          List.replicate 8 (urlGetReadAll (Except.error "connection refused"))) =
      "Service Unavailable" := by
  refine ⟨?_, rfl, by decide, by decide⟩
  intro sc sc' body
  cases body <;> rfl
